import Mathlib

/-!
# Verification of the batch image conversion pipeline

A shallow embedding of `src/heic_to_jpg_converter.py`, the single-file image
format converter.  The embedded fragment is the conversion core: the
`ConverterThread.process_image` method (frame extraction, per-frame color-mode
normalisation, ICO resizing, destination-path computation and save parameters)
and the `ConverterThread.run` batch loop (per-file error isolation, progress /
status / finished signal emission).

External codec behaviour (Pillow, pillow-heif) is modelled by the data each
call returns: an `InputFile` carries the outcome of `pillow_heif.read_heif`
and of `PIL.Image.open` plus the frame sequence the `seek` probe loop walks;
a frame is its color mode and pixel dimensions.  Filesystem writes are
modelled by a failure predicate on output paths, and directory creation by an
explicit list of existing directories.
-/

deriving instance DecidableEq for Except

namespace Converter

/-- A decoded raster frame as the pipeline observes it: PIL color mode
(e.g. "RGB", "RGBA", "P", "L") and pixel dimensions. -/
structure Frame where
  mode : String
  width : Nat
  height : Nat
deriving Repr, DecidableEq

/-- One input file as the codec layer presents it to `process_image`.
`fileExists` models the `os.path.exists` check (line 118); `heicFrame` the
outcome of `pillow_heif.read_heif` (line 129, `none` = raises); `openedFrames`
the outcome of `PIL.Image.open` (line 143, `none` = raises) together with the
frame sequence the `seek` loop can reach: the initially loaded frame and the
further frames successive `seek` calls find before raising `EOFError`. -/
structure InputFile where
  path : String
  fileExists : Bool
  heicFrame : Option Frame
  openedFrames : Option (Frame × List Frame)
deriving Repr, DecidableEq

/-- The conversion request held by `ConverterThread`: output format token
(lowercase), optional ICO edge length, and the batch output directory. -/
structure Config where
  fmt : String
  icoSize : Option Int
  outDir : String
deriving Repr, DecidableEq

/-- `os.path.join` for a relative second component (the only way the program
calls it). -/
def joinPath (a b : String) : String := a ++ "/" ++ b

/-- Splitting a character list at every occurrence of the separator `c`
(the semantics of Python's `str.split` / `os.path` splitting on one-character
separators). -/
def splitOnChar (c : Char) : List Char → List (List Char)
  | [] => [[]]
  | x :: xs =>
    match splitOnChar c xs with
    | [] => [[]]
    | g :: gs => if x = c then [] :: g :: gs else (x :: g) :: gs

/-- Joining character-list groups with the separator `c` between them. -/
def intercalateChar (c : Char) : List (List Char) → List Char
  | [] => []
  | [g] => g
  | g :: gs => g ++ c :: intercalateChar c gs

/-- `os.path.basename`: the part after the last path separator. -/
def basename (p : String) : String :=
  String.mk ((splitOnChar '/' p.data).getLastD p.data)

/-- The stem `os.path.splitext(name)[0]`: the text before the last dot,
except that a basename whose characters before that dot are all dots (a
dotfile such as ".bashrc") is returned whole. -/
def splitextStem (name : String) : String :=
  let parts := splitOnChar '.' name.data
  if parts.length ≤ 1 then name
  else
    let stem := intercalateChar '.' parts.dropLast
    if stem.all (fun c => c = '.') then name else String.mk stem

/-- `os.path.splitext(os.path.basename(file_path))[0]` (line 159). -/
def stemOf (p : String) : String := splitextStem (basename p)

/-- Line 126: `file_path.lower().endswith((".heic", ".heic"))` — the tuple
repeats ".heic", so only the `.heic` suffix (case-insensitive) selects the
dedicated HEIC decode path. -/
def isHeicPath (p : String) : Bool :=
  List.isSuffixOf ['.', 'h', 'e', 'i', 'c'] (p.data.map Char.toLower)

/-- The `while True: append copy; seek(tell + 1)` probe loop (lines 147-153),
viewed through the image's frame cursor: the current frame's copy is appended,
then `seek` either advances to the next frame or raises `EOFError` at the
first absent frame, which breaks the loop without error. -/
def seekLoop : Frame → List Frame → List Frame
  | cur, [] => [cur]
  | cur, next :: rest => cur :: seekLoop next rest

/-- Frame extraction (lines 125-156): a `.heic` path decodes through
`pillow_heif.read_heif` and yields exactly one frame, or fails; every other
path opens through `PIL.Image.open` and walks the seek loop, or fails.  A
file that cannot be opened at all is a decode error. -/
def extractFrames (file : InputFile) : Except String (List Frame) :=
  if isHeicPath file.path then
    match file.heicFrame with
    | some f => .ok [f]
    | none => .error ("无法读取 HEIC 文件: " ++ file.path)
  else
    match file.openedFrames with
    | some (f, rest) => .ok (seekLoop f rest)
    | none => .error ("无法打开图片文件: " ++ file.path)

/-- Color-mode normalisation (lines 172-179): the JPG target forces RGB
whenever the mode is not already RGB; every other target keeps RGB and RGBA
as they are and converts any remaining mode to RGB. -/
def convertMode (fmt : String) (f : Frame) : Frame :=
  if fmt = "jpg" ∧ f.mode ≠ "RGB" then { f with mode := "RGB" }
  else if f.mode ≠ "RGB" ∧ f.mode ≠ "RGBA" then { f with mode := "RGB" }
  else f

/-- Python truthiness of `self.ico_size` in `if self.output_format == "ico"
and self.ico_size:` (line 182): `None` and `0` are falsy. -/
def icoTruthy : Option Int → Bool
  | none => false
  | some s => s != 0

/-- ICO resizing (lines 182-186): when the target is "ico" and an edge length
was supplied (truthy), a non-positive edge raises `ValueError`, otherwise the
frame is resized to an exact square of that edge with `LANCZOS` resampling. -/
def icoResize (fmt : String) (icoSize : Option Int) (f : Frame) : Except String Frame :=
  if fmt = "ico" ∧ icoTruthy icoSize then
    match icoSize with
    | some s =>
        if s ≤ 0 then .error ("无效的 ICO 尺寸: " ++ toString s)
        else .ok { f with width := s.toNat, height := s.toNat }
    | none => .ok f
  else .ok f

/-- The whole per-frame transformation, in source order: color-mode
normalisation first (lines 172-179), then ICO resizing (lines 182-186). -/
def transformFrame (fmt : String) (icoSize : Option Int) (f : Frame) : Except String Frame :=
  icoResize fmt icoSize (convertMode fmt f)

/-- The `format_mapping` dict built in `run` (lines 226-234). -/
def formatMapping (fmt : String) : Option String :=
  if fmt = "jpg" then some "JPEG"
  else if fmt = "png" then some "PNG"
  else if fmt = "webp" then some "WEBP"
  else if fmt = "bmp" then some "BMP"
  else if fmt = "gif" then some "GIF"
  else if fmt = "tiff" then some "TIFF"
  else if fmt = "ico" then some "ICO"
  else none

/-- `format_mapping.get(self.output_format, self.output_format.upper())`
(line 196); upper-casing is written characterwise. -/
def pillowFormat (fmt : String) : String :=
  (formatMapping fmt).getD (String.mk (fmt.data.map Char.toUpper))

/-- The keyword arguments passed to `img.save` (lines 196-205): the Pillow
encoder name, the optional `quality` knob, and for ICO the `sizes` list. -/
structure SaveParams where
  encoder : String
  quality : Option Nat
  sizes : Option (List (Option Int × Option Int))
deriving Repr, DecidableEq

/-- `save_kwargs` construction (lines 196-203): quality 95 for "jpg",
quality 80 for "webp", `sizes=[(ico_size, ico_size)]` for "ico", nothing
otherwise. -/
def saveParamsFor (fmt : String) (icoSize : Option Int) : SaveParams :=
  { encoder := pillowFormat fmt
  , quality := if fmt = "jpg" then some 95 else if fmt = "webp" then some 80 else none
  , sizes := if fmt = "ico" then some [(icoSize, icoSize)] else none }

/-- The output file name of one frame (lines 189-192): the stem, a
`_page<N>` suffix (1-based) only when the input was multi-frame, and the
target extension. -/
def frameFileName (stem fmt : String) (multi : Bool) (pageIdx : Nat) : String :=
  (if multi then stem ++ "_page" ++ toString (pageIdx + 1) else stem) ++ "." ++ fmt

/-- One output file as written by `img.save` (line 205). -/
structure SavedFile where
  path : String
  frame : Frame
  params : SaveParams
deriving Repr, DecidableEq

/-- The per-frame loop of `process_image` (lines 169-215): each frame is
transformed and saved; any frame failure re-raises (line 212) and aborts the
whole file.  `wf` models filesystem write failure at an output path. -/
def processFrames (wf : String → Bool) (cfg : Config) (outDir stem : String)
    (multi : Bool) : Nat → List Frame → Except String (List SavedFile)
  | _, [] => .ok []
  | i, f :: rest =>
    match transformFrame cfg.fmt cfg.icoSize f with
    | .error e => .error e
    | .ok t =>
      let path := joinPath outDir (frameFileName stem cfg.fmt multi i)
      if wf path then .error ("保存失败: " ++ path)
      else
        match processFrames wf cfg outDir stem multi (i + 1) rest with
        | .error e => .error e
        | .ok saved =>
            .ok ({ path := path, frame := t, params := saveParamsFor cfg.fmt cfg.icoSize } :: saved)

/-- `process_image` (lines 114-223): existence check, frame extraction,
destination directory selection (a per-stem subfolder only for multi-frame
inputs, lines 158-166), then the per-frame transform-and-save loop.  Every
failure surfaces as an error result; success returns the written files. -/
def processImage (wf : String → Bool) (cfg : Config) (file : InputFile) :
    Except String (List SavedFile) :=
  if file.fileExists then
    match extractFrames file with
    | .error e => .error e
    | .ok frames =>
      let stem := stemOf file.path
      let multi := 1 < frames.length
      let outDir := if multi then joinPath cfg.outDir stem else cfg.outDir
      processFrames wf cfg outDir stem multi 0 frames
  else .error ("文件不存在: " ++ file.path)

/-- `if not os.path.exists(dir): os.makedirs(dir)` (lines 162-163 and 47-48):
create-if-absent, a no-op when the directory already exists. -/
def ensureDir (dirs : List String) (d : String) : List String :=
  if d ∈ dirs then dirs else dirs ++ [d]

/-- The subfolder `process_image` creates for this file, if any: only a
multi-frame input whose extraction succeeded gets
`<outDir>/<stem>` (lines 158-164). -/
def fileSubdir (cfg : Config) (file : InputFile) : Option String :=
  if file.fileExists then
    match extractFrames file with
    | .ok frames =>
        if 1 < frames.length then some (joinPath cfg.outDir (stemOf file.path)) else none
    | .error _ => none
  else none

/-- Directory state after `process_image` ran on one file. -/
def stepDirs (cfg : Config) (dirs : List String) (file : InputFile) : List String :=
  match fileSubdir cfg file with
  | some d => ensureDir dirs d
  | none => dirs

/-- The signals `ConverterThread` emits: `progress_updated(int)`,
`status_updated(str)` and `conversion_finished()`. -/
inductive Event where
  | progress (n : Nat)
  | status (msg : String)
  | finished
deriving Repr, DecidableEq

/-- The status text emitted on a per-file failure, both by `process_image`
(line 218) and again by the `run` loop (line 249). -/
def failStatus (path err : String) : String := "处理图片失败 " ++ path ++ ": " ++ err

/-- Whether a result is a success. -/
def exceptOk : Except String (List SavedFile) → Bool
  | .ok _ => true
  | .error _ => false

/-- The signals emitted while one file is processed, given the count of files
successfully processed so far (lines 242-250): a success emits the new count
as progress; a failure emits the failure status twice (once inside
`process_image`, line 218, once in the loop handler, line 249) and no
progress. -/
def fileEvents (wf : String → Bool) (cfg : Config) (processed : Nat)
    (file : InputFile) : List Event :=
  match processImage wf cfg file with
  | .ok _ => [.progress (processed + 1)]
  | .error e => [.status (failStatus file.path e), .status (failStatus file.path e)]

/-- The state the batch loop threads: existing directories, the
`processed_files` counter, the emitted signals in order, and one outcome per
input file. -/
structure BatchState where
  dirs : List String
  processed : Nat
  events : List Event
  outcomes : List (Except String (List SavedFile))
deriving Repr, DecidableEq

/-- One iteration of the `for file_path in self.files` loop (lines 242-255). -/
def stepFile (wf : String → Bool) (cfg : Config) (st : BatchState)
    (file : InputFile) : BatchState :=
  { dirs := stepDirs cfg st.dirs file
  , processed := st.processed + (if exceptOk (processImage wf cfg file) then 1 else 0)
  , events := st.events ++ fileEvents wf cfg st.processed file
  , outcomes := st.outcomes ++ [processImage wf cfg file] }

/-- `ConverterThread.run` (lines 225-260): fold the per-file step over the
input list, then emit the completion status, the final progress equal to the
total file count, and the finished signal (lines 257-260). -/
def runBatch (wf : String → Bool) (cfg : Config) (dirs : List String)
    (files : List InputFile) : BatchState :=
  let st := files.foldl (stepFile wf cfg) ⟨dirs, 0, [], []⟩
  { st with
    events := st.events ++ [.status "转换完成！", .progress files.length, .finished] }

/-- The values carried by the progress signals of an event trace, in
emission order. -/
def progressValues (evs : List Event) : List Nat :=
  evs.filterMap fun e => match e with | .progress n => some n | _ => none

/-- The number of input files `process_image` succeeds on (what the
`processed_files` counter reaches). -/
def successCount (wf : String → Bool) (cfg : Config) (files : List InputFile) : Nat :=
  (files.filter fun f => exceptOk (processImage wf cfg f)).length

/-! ### Concrete sample data, used to evaluate the pipeline at specific inputs -/

/-- A filesystem on which every write succeeds. -/
def wfNone : String → Bool := fun _ => false

/-- A fully transparent RGBA frame (alpha content is not part of the mode
string; "RGBA" is the mode such a source decodes to). -/
def frameRGBA : Frame := { mode := "RGBA", width := 100, height := 3 }

/-- A palette-mode frame with a non-square aspect ratio. -/
def frameP : Frame := { mode := "P", width := 640, height := 5 }

/-- A second frame, as found on page 2 of a multi-page container. -/
def frameGray : Frame := { mode := "L", width := 8, height := 8 }

/-- A two-page non-HEIC input (e.g. a multi-frame TIFF). -/
def fileTwoPage : InputFile :=
  { path := "d/scan.tif", fileExists := true, heicFrame := none
  , openedFrames := some (frameP, [frameGray]) }

/-- A single-frame RGBA input. -/
def fileRGBA : InputFile :=
  { path := "d/photo.png", fileExists := true, heicFrame := none
  , openedFrames := some (frameRGBA, []) }

/-- A corrupt non-HEIC input: `PIL.Image.open` raises. -/
def fileBad : InputFile :=
  { path := "d/corrupt.gif", fileExists := true, heicFrame := none
  , openedFrames := none }

/-- A decodable HEIC input. -/
def fileHeic : InputFile :=
  { path := "d/img.HEIC", fileExists := true, heicFrame := some frameRGBA
  , openedFrames := none }

/-- A JPG conversion request into the directory `pic`. -/
def cfgJpg : Config := { fmt := "jpg", icoSize := none, outDir := "pic" }

/-- The two files the pipeline writes for `fileTwoPage` under the JPG
request `cfgJpg`. -/
def savedTwoPage : List SavedFile :=
  [ { path := "pic/scan/scan_page1.jpg"
    , frame := { mode := "RGB", width := 640, height := 5 }
    , params := { encoder := "JPEG", quality := some 95, sizes := none } }
  , { path := "pic/scan/scan_page2.jpg"
    , frame := { mode := "RGB", width := 8, height := 8 }
    , params := { encoder := "JPEG", quality := some 95, sizes := none } } ]

/-- An ICO conversion request with edge length 64. -/
def cfgIco : Config := { fmt := "ico", icoSize := some 64, outDir := "pic" }

/-- A PNG conversion request. -/
def cfgPng : Config := { fmt := "png", icoSize := none, outDir := "pic" }

/-! ### Basic lemmas about extraction -/

theorem seekLoop_eq_cons (f : Frame) (rest : List Frame) :
    seekLoop f rest = f :: rest := by
  induction rest generalizing f with
  | nil => rfl
  | cons next rest ih => rw [seekLoop, ih]

theorem extractFrames_heic_eq (file : InputFile) (h : isHeicPath file.path = true) :
    extractFrames file = match file.heicFrame with
      | some f => .ok [f]
      | none => .error ("无法读取 HEIC 文件: " ++ file.path) := by
  unfold extractFrames
  rw [if_pos h]

theorem extractFrames_open_eq (file : InputFile) (h : ¬ isHeicPath file.path = true) :
    extractFrames file = match file.openedFrames with
      | some (f, rest) => .ok (f :: rest)
      | none => .error ("无法打开图片文件: " ++ file.path) := by
  unfold extractFrames
  rw [if_neg h]
  cases file.openedFrames with
  | none => rfl
  | some p =>
    cases p with
    | mk f rest => simp [seekLoop_eq_cons]

theorem extractFrames_ok_ne_nil (file : InputFile) (frames : List Frame)
    (hok : extractFrames file = .ok frames) : frames ≠ [] := by
  by_cases h : isHeicPath file.path = true
  · rw [extractFrames_heic_eq file h] at hok
    cases hh : file.heicFrame with
    | some f => rw [hh] at hok; cases hok; simp
    | none => rw [hh] at hok; cases hok
  · rw [extractFrames_open_eq file h] at hok
    cases hh : file.openedFrames with
    | some p => cases p; rw [hh] at hok; cases hok; simp
    | none => rw [hh] at hok; cases hok

/-! ### Lemmas about the batch loop -/

theorem foldl_stepFile_outcomes (wf : String → Bool) (cfg : Config)
    (files : List InputFile) (st : BatchState) :
    (files.foldl (stepFile wf cfg) st).outcomes
      = st.outcomes ++ files.map (processImage wf cfg) := by
  induction files generalizing st with
  | nil => simp
  | cons f fs ih =>
    rw [List.foldl_cons, ih]
    simp [stepFile]

theorem fileEvents_no_finished (wf : String → Bool) (cfg : Config) (p : Nat)
    (file : InputFile) : Event.finished ∉ fileEvents wf cfg p file := by
  unfold fileEvents
  cases processImage wf cfg file <;> simp

theorem foldl_stepFile_no_finished (wf : String → Bool) (cfg : Config)
    (files : List InputFile) (st : BatchState)
    (h : Event.finished ∉ st.events) :
    Event.finished ∉ (files.foldl (stepFile wf cfg) st).events := by
  induction files generalizing st with
  | nil => exact h
  | cons f fs ih =>
    rw [List.foldl_cons]
    apply ih
    simp only [stepFile, List.mem_append]
    rintro (hc | hc)
    · exact h hc
    · exact fileEvents_no_finished wf cfg st.processed f hc

theorem successCount_cons (wf : String → Bool) (cfg : Config) (f : InputFile)
    (fs : List InputFile) :
    successCount wf cfg (f :: fs)
      = (if exceptOk (processImage wf cfg f) then 1 else 0) + successCount wf cfg fs := by
  unfold successCount
  cases h : exceptOk (processImage wf cfg f) <;> simp [List.filter_cons, h, Nat.add_comm]

theorem foldl_stepFile_processed (wf : String → Bool) (cfg : Config)
    (files : List InputFile) (st : BatchState) :
    (files.foldl (stepFile wf cfg) st).processed
      = st.processed + successCount wf cfg files := by
  induction files generalizing st with
  | nil => simp [successCount]
  | cons f fs ih =>
    rw [List.foldl_cons, ih, successCount_cons]
    simp only [stepFile]
    omega

theorem range'_one_add (s n : Nat) :
    List.range' s (1 + n) = s :: List.range' (s + 1) n := by
  rw [Nat.add_comm, List.range'_succ]

theorem progressValues_append (l1 l2 : List Event) :
    progressValues (l1 ++ l2) = progressValues l1 ++ progressValues l2 :=
  List.filterMap_append l1 l2 _

theorem progressValues_fileEvents (wf : String → Bool) (cfg : Config) (p : Nat)
    (file : InputFile) :
    progressValues (fileEvents wf cfg p file)
      = if exceptOk (processImage wf cfg file) then [p + 1] else [] := by
  unfold fileEvents exceptOk
  cases processImage wf cfg file <;> simp [progressValues]

theorem foldl_stepFile_progress (wf : String → Bool) (cfg : Config)
    (files : List InputFile) (st : BatchState) :
    progressValues (files.foldl (stepFile wf cfg) st).events
      = progressValues st.events
        ++ List.range' (st.processed + 1) (successCount wf cfg files) := by
  induction files generalizing st with
  | nil => simp [successCount]
  | cons f fs ih =>
    rw [List.foldl_cons, ih, successCount_cons]
    simp only [stepFile, progressValues_append, progressValues_fileEvents]
    cases h : exceptOk (processImage wf cfg f)
    · simp [h]
    · simp [range'_one_add]

theorem batch_progress_trace (wf : String → Bool) (cfg : Config)
    (dirs : List String) (files : List InputFile) :
    progressValues (runBatch wf cfg dirs files).events
      = List.range' 1 (successCount wf cfg files) ++ [files.length] := by
  unfold runBatch
  rw [progressValues_append, foldl_stepFile_progress]
  simp [progressValues]

/-! ### Lemmas about directory creation -/

theorem mem_ensureDir_self (ds : List String) (d : String) : d ∈ ensureDir ds d := by
  unfold ensureDir
  split
  · assumption
  · simp

theorem ensureDir_of_mem (ds : List String) (d : String) (h : d ∈ ds) :
    ensureDir ds d = ds := if_pos h

theorem mem_ensureDir_of_mem (ds : List String) (d x : String) (h : x ∈ ds) :
    x ∈ ensureDir ds d := by
  unfold ensureDir
  split
  · exact h
  · exact List.mem_append_left _ h

theorem mem_stepDirs_of_mem (cfg : Config) (ds : List String) (f : InputFile)
    (x : String) (h : x ∈ ds) : x ∈ stepDirs cfg ds f := by
  unfold stepDirs
  cases fileSubdir cfg f with
  | none => exact h
  | some d => exact mem_ensureDir_of_mem ds d x h

theorem mem_foldl_stepDirs_of_mem (cfg : Config) (files : List InputFile)
    (ds : List String) (x : String) (h : x ∈ ds) :
    x ∈ files.foldl (stepDirs cfg) ds := by
  induction files generalizing ds with
  | nil => exact h
  | cons f fs ih => exact ih _ (mem_stepDirs_of_mem cfg ds f x h)

theorem subdir_mem_foldl_stepDirs (cfg : Config) (files : List InputFile)
    (ds : List String) (f : InputFile) (d : String)
    (hf : f ∈ files) (hd : fileSubdir cfg f = some d) :
    d ∈ files.foldl (stepDirs cfg) ds := by
  induction files generalizing ds with
  | nil => cases hf
  | cons g gs ih =>
    rw [List.foldl_cons]
    cases List.mem_cons.mp hf with
    | inl hfg =>
      apply mem_foldl_stepDirs_of_mem
      subst hfg
      unfold stepDirs
      rw [hd]
      exact mem_ensureDir_self ds d
    | inr hfs => exact ih _ hfs

theorem stepDirs_eq_of_mem (cfg : Config) (ds : List String) (f : InputFile)
    (h : ∀ d, fileSubdir cfg f = some d → d ∈ ds) : stepDirs cfg ds f = ds := by
  unfold stepDirs
  cases hs : fileSubdir cfg f with
  | none => rfl
  | some d => exact ensureDir_of_mem ds d (h d hs)

theorem foldl_stepDirs_fixpoint (cfg : Config) (files : List InputFile)
    (ds : List String)
    (h : ∀ f ∈ files, ∀ d, fileSubdir cfg f = some d → d ∈ ds) :
    files.foldl (stepDirs cfg) ds = ds := by
  induction files with
  | nil => rfl
  | cons f fs ih =>
    rw [List.foldl_cons, stepDirs_eq_of_mem cfg ds f (h f (List.mem_cons_self f fs))]
    exact ih fun g hg d hd => h g (List.mem_cons_of_mem f hg) d hd

theorem foldl_stepDirs_idem (cfg : Config) (files : List InputFile)
    (ds : List String) :
    files.foldl (stepDirs cfg) (files.foldl (stepDirs cfg) ds)
      = files.foldl (stepDirs cfg) ds :=
  foldl_stepDirs_fixpoint cfg files _
    fun f hf d hd => subdir_mem_foldl_stepDirs cfg files ds f d hf hd

theorem stepFile_dirs_set (wf : String → Bool) (cfg : Config) (st : BatchState)
    (f : InputFile) (d : List String) :
    stepFile wf cfg { st with dirs := d } f
      = { stepFile wf cfg st f with dirs := stepDirs cfg d f } := rfl

theorem foldl_stepFile_dirs_set (wf : String → Bool) (cfg : Config)
    (files : List InputFile) (st : BatchState) (d : List String) :
    files.foldl (stepFile wf cfg) { st with dirs := d }
      = { files.foldl (stepFile wf cfg) st with dirs := files.foldl (stepDirs cfg) d } := by
  induction files generalizing st d with
  | nil => rfl
  | cons f fs ih =>
    rw [List.foldl_cons, stepFile_dirs_set, List.foldl_cons, ih]
    rfl

theorem foldl_stepFile_dirs (wf : String → Bool) (cfg : Config)
    (files : List InputFile) (st : BatchState) :
    (files.foldl (stepFile wf cfg) st).dirs
      = files.foldl (stepDirs cfg) st.dirs := by
  have h := foldl_stepFile_dirs_set wf cfg files st st.dirs
  simpa using congrArg BatchState.dirs h

/-! ### Lemmas about the per-frame loop -/

theorem processFrames_ok_paths (wf : String → Bool) (cfg : Config)
    (outDir stem : String) (multi : Bool) (frames : List Frame) :
    ∀ (i : Nat) (saved : List SavedFile),
      processFrames wf cfg outDir stem multi i frames = .ok saved →
      saved.map (fun s => s.path)
        = (List.range' i frames.length).map
            (fun k => joinPath outDir (frameFileName stem cfg.fmt multi k)) := by
  induction frames with
  | nil =>
    intro i saved h
    simp only [processFrames] at h
    cases h
    simp
  | cons f rest ih =>
    intro i saved h
    simp only [processFrames] at h
    split at h
    · cases h
    · split at h
      · cases h
      · split at h
        · cases h
        · rename_i saved2 hr
          cases h
          simp [List.range'_succ, ih (i + 1) saved2 hr]

theorem processFrames_ok_length (wf : String → Bool) (cfg : Config)
    (outDir stem : String) (multi : Bool) (frames : List Frame)
    (i : Nat) (saved : List SavedFile)
    (h : processFrames wf cfg outDir stem multi i frames = .ok saved) :
    saved.length = frames.length := by
  have hp := processFrames_ok_paths wf cfg outDir stem multi frames i saved h
  have hl := congrArg List.length hp
  simpa using hl

theorem processImage_eq (wf : String → Bool) (cfg : Config) (file : InputFile)
    (frames : List Frame)
    (hfe : file.fileExists = true)
    (hex : extractFrames file = .ok frames) :
    processImage wf cfg file
      = processFrames wf cfg
          (if 1 < frames.length then joinPath cfg.outDir (stemOf file.path) else cfg.outDir)
          (stemOf file.path) (decide (1 < frames.length)) 0 frames := by
  unfold processImage
  rw [if_pos hfe, hex]

theorem convertMode_jpg_mode (f : Frame) : (convertMode "jpg" f).mode = "RGB" := by
  by_cases h : f.mode = "RGB" <;> simp [convertMode, h]

theorem convertMode_dims (fmt : String) (f : Frame) :
    (convertMode fmt f).width = f.width ∧ (convertMode fmt f).height = f.height := by
  unfold convertMode
  split
  · exact ⟨rfl, rfl⟩
  · split
    · exact ⟨rfl, rfl⟩
    · exact ⟨rfl, rfl⟩

theorem transformFrame_jpg (icoSize : Option Int) (f : Frame) :
    transformFrame "jpg" icoSize f = .ok (convertMode "jpg" f) := by
  unfold transformFrame icoResize
  rw [if_neg]
  intro hc
  exact absurd hc.1 (by decide)

theorem processFrames_jpg_ok (wf : String → Bool) (cfg : Config)
    (outDir stem : String) (multi : Bool)
    (hfmt : cfg.fmt = "jpg") (hw : ∀ p, wf p = false) (frames : List Frame) :
    ∀ i, ∃ saved, processFrames wf cfg outDir stem multi i frames = .ok saved ∧
      ∀ s ∈ saved, s.frame.mode = "RGB" := by
  induction frames with
  | nil => intro i; exact ⟨[], rfl, by simp⟩
  | cons f rest ih =>
    intro i
    obtain ⟨saved2, hr, hms⟩ := ih (i + 1)
    refine ⟨{ path := joinPath outDir (frameFileName stem cfg.fmt multi i)
            , frame := convertMode "jpg" f
            , params := saveParamsFor cfg.fmt cfg.icoSize } :: saved2, ?_, ?_⟩
    · simp only [processFrames, hfmt, transformFrame_jpg, hw, hr]
      rfl
    · intro s hs
      cases List.mem_cons.mp hs with
      | inl he => rw [he]; exact convertMode_jpg_mode f
      | inr ht => exact hms s ht

/-! ### The claims -/

/-- C4: frame extraction returns an ordered, non-empty sequence of frames or
fails with a decode error: a `.heic`-suffixed input takes the dedicated
`pillow_heif` path and yields exactly one frame (failing with a decode error
when that read fails); every other input is probed for successive frames by
the seek loop, which stops without error at the first absent frame and
returns everything decoded so far, while a file that cannot be opened at all
fails with a decode error. -/
theorem claim_extract_contract (file : InputFile) :
    (∀ frames, extractFrames file = .ok frames → frames ≠ []) ∧
    (isHeicPath file.path = true →
      (∀ fr, file.heicFrame = some fr → extractFrames file = .ok [fr]) ∧
      (file.heicFrame = none → ∃ e, extractFrames file = .error e)) ∧
    (isHeicPath file.path = false →
      (∀ f rest, file.openedFrames = some (f, rest) →
        extractFrames file = .ok (seekLoop f rest) ∧ seekLoop f rest = f :: rest) ∧
      (file.openedFrames = none → ∃ e, extractFrames file = .error e)) := by
  refine ⟨fun frames hok => extractFrames_ok_ne_nil file frames hok, ?_, ?_⟩
  · intro hh
    constructor
    · intro fr hfr
      rw [extractFrames_heic_eq file hh, hfr]
    · intro hfr
      exact ⟨_, by rw [extractFrames_heic_eq file hh, hfr]⟩
  · intro hh
    have hh2 : ¬ isHeicPath file.path = true := by simp [hh]
    constructor
    · intro f rest hof
      refine ⟨?_, seekLoop_eq_cons f rest⟩
      rw [extractFrames_open_eq file hh2, hof, seekLoop_eq_cons]
    · intro hof
      exact ⟨_, by rw [extractFrames_open_eq file hh2, hof]⟩

/-- C1: the batch loop records exactly one outcome per input file, each
outcome a function of that file alone: a failure while decoding,
transforming or writing a file yields an error outcome for that file only,
no exception escapes the per-file boundary (the loop body is total over the
whole input list), and every remaining file is still processed with its
outcome unaffected by earlier failures. -/
theorem claim_batch_isolation (wf : String → Bool) (cfg : Config)
    (dirs : List String) (files : List InputFile) :
    (runBatch wf cfg dirs files).outcomes = files.map (processImage wf cfg) ∧
    (runBatch wf cfg dirs files).outcomes.length = files.length := by
  have h : (runBatch wf cfg dirs files).outcomes = files.map (processImage wf cfg) := by
    unfold runBatch
    simp [foldl_stepFile_outcomes]
  exact ⟨h, by rw [h, List.length_map]⟩

/-- C10: every batch run ends, however many files failed, by emitting the
completion status message, a final progress value equal to the total number
of input files, and exactly one conversion-finished signal: the finished
signal closes the trace and occurs nowhere before the final triple. -/
theorem claim_batch_completion (wf : String → Bool) (cfg : Config)
    (dirs : List String) (files : List InputFile) :
    ∃ pre, (runBatch wf cfg dirs files).events
        = pre ++ [Event.status "转换完成！", Event.progress files.length, Event.finished] ∧
      Event.finished ∉ pre := by
  refine ⟨(files.foldl (stepFile wf cfg) ⟨dirs, 0, [], []⟩).events, rfl, ?_⟩
  exact foldl_stepFile_no_finished wf cfg files _ (by simp)

/-- C3 (amended): a progress report is emitted after each successful file,
carrying the running count of successes; a failed file emits only its two
failure statuses and no progress report; and every run ends with a final
progress equal to the total number of input files.  The sequence of emitted
progress values is therefore `1, 2, …, s` (`s` = number of successes)
followed by the total: monotonically non-decreasing and ending at the
total. -/
theorem claim_progress_amended (wf : String → Bool) (cfg : Config)
    (dirs : List String) (files : List InputFile) :
    progressValues (runBatch wf cfg dirs files).events
      = List.range' 1 (successCount wf cfg files) ++ [files.length] ∧
    List.Pairwise (fun a b => a ≤ b)
      (progressValues (runBatch wf cfg dirs files).events) ∧
    (∀ p file, exceptOk (processImage wf cfg file) = true →
      fileEvents wf cfg p file = [Event.progress (p + 1)]) ∧
    (∀ p file, exceptOk (processImage wf cfg file) = false →
      progressValues (fileEvents wf cfg p file) = []) := by
  refine ⟨batch_progress_trace wf cfg dirs files, ?_, ?_, ?_⟩
  · rw [batch_progress_trace wf cfg dirs files, List.pairwise_append]
    refine ⟨(List.pairwise_lt_range' 1 _).imp (fun h => Nat.le_of_lt h), by simp, ?_⟩
    intro a ha b hb
    rw [List.mem_singleton] at hb
    subst hb
    have h1 := (List.mem_range'_1.mp ha).2
    have h2 : successCount wf cfg files ≤ files.length := List.length_filter_le _ _
    omega
  · intro p file h
    cases hpi : processImage wf cfg file with
    | ok s => unfold fileEvents; rw [hpi]
    | error e => simp [exceptOk, hpi] at h
  · intro p file h
    cases hpi : processImage wf cfg file with
    | ok s => simp [exceptOk, hpi] at h
    | error e => unfold fileEvents; rw [hpi]; rfl

/-- C3 counterexample: a batch of two files whose first file is corrupt.
The first file's processing completes (the loop records its failure and
moves on) but the events it emits are exactly two failure statuses, with no
progress value among them — refuting, at this input, that a progress report
is emitted after each file completes whether it succeeded or failed.  The
full trace shows the only progress signals are the count after the second
(successful) file and the final total. -/
theorem claim_progress_cex :
    progressValues (fileEvents wfNone cfgJpg 0 fileBad) = [] ∧
    fileEvents wfNone cfgJpg 0 fileBad
      = [Event.status "处理图片失败 d/corrupt.gif: 无法打开图片文件: d/corrupt.gif",
         Event.status "处理图片失败 d/corrupt.gif: 无法打开图片文件: d/corrupt.gif"] ∧
    (runBatch wfNone cfgJpg [] [fileBad, fileRGBA]).events
      = [Event.status "处理图片失败 d/corrupt.gif: 无法打开图片文件: d/corrupt.gif",
         Event.status "处理图片失败 d/corrupt.gif: 无法打开图片文件: d/corrupt.gif",
         Event.progress 1,
         Event.status "转换完成！", Event.progress 2, Event.finished] :=
  ⟨rfl, rfl, rfl⟩

/-- C8: output directory creation is create-if-absent and idempotent
(creating a directory that already exists is a no-op and never fails), and
re-running the same batch against the directory state left by the first run
yields identical outcomes and an identical event trace — in particular the
same output paths, deterministically overwriting the same destinations —
and leaves the directory state unchanged. -/
theorem claim_rerun_idempotent (wf : String → Bool) (cfg : Config)
    (dirs : List String) (files : List InputFile) :
    (∀ ds d, d ∈ ensureDir ds d) ∧
    (∀ ds d, d ∈ ds → ensureDir ds d = ds) ∧
    (runBatch wf cfg (runBatch wf cfg dirs files).dirs files).outcomes
      = (runBatch wf cfg dirs files).outcomes ∧
    (runBatch wf cfg (runBatch wf cfg dirs files).dirs files).events
      = (runBatch wf cfg dirs files).events ∧
    (runBatch wf cfg (runBatch wf cfg dirs files).dirs files).dirs
      = (runBatch wf cfg dirs files).dirs := by
  have key : files.foldl (stepFile wf cfg)
        ⟨(runBatch wf cfg dirs files).dirs, 0, [], []⟩
      = { files.foldl (stepFile wf cfg) ⟨dirs, 0, [], []⟩ with
          dirs := files.foldl (stepDirs cfg) (runBatch wf cfg dirs files).dirs } :=
    foldl_stepFile_dirs_set wf cfg files ⟨dirs, 0, [], []⟩
      (runBatch wf cfg dirs files).dirs
  have houts : (files.foldl (stepFile wf cfg)
        ⟨(runBatch wf cfg dirs files).dirs, 0, [], []⟩).outcomes
      = (files.foldl (stepFile wf cfg) ⟨dirs, 0, [], []⟩).outcomes := by
    rw [key]
  have hevs : (files.foldl (stepFile wf cfg)
        ⟨(runBatch wf cfg dirs files).dirs, 0, [], []⟩).events
      = (files.foldl (stepFile wf cfg) ⟨dirs, 0, [], []⟩).events := by
    rw [key]
  refine ⟨fun ds d => mem_ensureDir_self ds d,
    fun ds d h => ensureDir_of_mem ds d h, ?_, ?_, ?_⟩
  · exact houts
  · exact congrArg
      (fun l => l ++ [Event.status "转换完成！", Event.progress files.length, Event.finished])
      hevs
  · have h1 : (runBatch wf cfg dirs files).dirs = files.foldl (stepDirs cfg) dirs :=
      foldl_stepFile_dirs wf cfg files ⟨dirs, 0, [], []⟩
    have h2 : (runBatch wf cfg (runBatch wf cfg dirs files).dirs files).dirs
        = files.foldl (stepDirs cfg) (runBatch wf cfg dirs files).dirs :=
      foldl_stepFile_dirs wf cfg files ⟨(runBatch wf cfg dirs files).dirs, 0, [], []⟩
    rw [h2, h1, foldl_stepDirs_idem]

/-- C7: the encoding parameters are a fixed function of the target format:
quality 95 is passed exactly on the JPEG path, quality 80 exactly on the
WEBP path, no lossy-quality parameter for any other format, and for the ICO
format the requested square size is embedded as the only stored resolution
(a one-element sizes list), no sizes parameter appearing for any other
format. -/
theorem claim_save_params :
    (∀ s, (saveParamsFor "jpg" s).quality = some 95) ∧
    (∀ s, (saveParamsFor "webp" s).quality = some 80) ∧
    (∀ fmt s, fmt ≠ "jpg" → fmt ≠ "webp" → (saveParamsFor fmt s).quality = none) ∧
    (∀ s, (saveParamsFor "ico" s).sizes = some [(s, s)]) ∧
    (∀ fmt s, fmt ≠ "ico" → (saveParamsFor fmt s).sizes = none) := by
  refine ⟨fun s => rfl, fun s => rfl, ?_, fun s => rfl, ?_⟩
  · intro fmt s h1 h2
    simp [saveParamsFor, h1, h2]
  · intro fmt s h
    simp [saveParamsFor, h]

/-- C9: for every target format other than "jpg", a frame whose mode is RGB
or RGBA is passed to the encoder without any mode conversion (in particular
an RGBA frame's alpha channel survives for PNG/WEBP output), any other mode
is converted to RGB, and the per-frame transformation applies this mode
policy before the ICO resize step. -/
theorem claim_non_jpg_mode (fmt : String) (f : Frame) (h : fmt ≠ "jpg") :
    ((f.mode = "RGB" ∨ f.mode = "RGBA") → convertMode fmt f = f) ∧
    (f.mode ≠ "RGB" → f.mode ≠ "RGBA" → convertMode fmt f = { f with mode := "RGB" }) ∧
    (∀ icoSize, transformFrame fmt icoSize f = icoResize fmt icoSize (convertMode fmt f)) := by
  refine ⟨?_, ?_, fun s => rfl⟩
  · intro hm
    unfold convertMode
    rw [if_neg (fun hc => h hc.1), if_neg]
    rintro ⟨h1, h2⟩
    cases hm with
    | inl hr => exact h1 hr
    | inr hr => exact h2 hr
  · intro h1 h2
    unfold convertMode
    rw [if_neg (fun hc => h hc.1), if_pos ⟨h1, h2⟩]

/-- C9 witness: with target format "png", an RGBA frame passes to the
encoder unchanged. -/
theorem claim_non_jpg_mode_witness : convertMode "png" frameRGBA = frameRGBA :=
  (claim_non_jpg_mode "png" frameRGBA (by decide)).1 (Or.inr rfl)

/-- C2: the destination paths are a deterministic function of input stem,
page index, frame count and target format: an input whose extraction yields
exactly one frame is written to `<outDir>/<stem>.<ext>` directly under the
batch output directory (no subfolder), and an input whose extraction yields
K > 1 frames is written to exactly K files
`<outDir>/<stem>/<stem>_page<N>.<ext>` with N 1-based and contiguous from 1
to K, inside the subfolder named after the stem. -/
theorem claim_output_paths (wf : String → Bool) (cfg : Config) (file : InputFile)
    (frames : List Frame) (saved : List SavedFile)
    (hex : extractFrames file = .ok frames)
    (hok : processImage wf cfg file = .ok saved) :
    saved.length = frames.length ∧
    (frames.length = 1 →
      saved.map (fun s => s.path)
        = [joinPath cfg.outDir (stemOf file.path ++ "." ++ cfg.fmt)]) ∧
    (1 < frames.length →
      saved.map (fun s => s.path)
        = (List.range' 1 frames.length).map (fun n =>
            joinPath (joinPath cfg.outDir (stemOf file.path))
              (stemOf file.path ++ "_page" ++ toString n ++ "." ++ cfg.fmt))) := by
  have hfe : file.fileExists = true := by
    by_contra hfe
    unfold processImage at hok
    rw [if_neg hfe] at hok
    cases hok
  rw [processImage_eq wf cfg file frames hfe hex] at hok
  refine ⟨?_, ?_, ?_⟩
  · exact processFrames_ok_length wf cfg _ _ _ frames 0 saved hok
  · intro h1
    rw [h1, if_neg (by omega)] at hok
    rw [show decide (1 < 1) = false from rfl] at hok
    have hp := processFrames_ok_paths wf cfg cfg.outDir (stemOf file.path) false frames 0 saved hok
    rw [hp, h1]
    simp [List.range', frameFileName]
  · intro h2
    rw [if_pos h2, decide_eq_true h2] at hok
    have hp := processFrames_ok_paths wf cfg (joinPath cfg.outDir (stemOf file.path))
      (stemOf file.path) true frames 0 saved hok
    rw [hp, ← List.map_add_range' 1 0 frames.length 1, List.map_map]
    apply List.map_congr_left
    intro k hk
    simp [frameFileName, Nat.add_comm]

/-- C2 witness: the two-page input `fileTwoPage` converted to JPG is written
to exactly the two 1-based, contiguous page files inside the per-stem
subfolder. -/
theorem claim_output_paths_witness :
    savedTwoPage.map (fun s => s.path)
      = (List.range' 1 2).map (fun n =>
          joinPath (joinPath cfgJpg.outDir (stemOf fileTwoPage.path))
            (stemOf fileTwoPage.path ++ "_page" ++ toString n ++ "." ++ cfgJpg.fmt)) :=
  (claim_output_paths wfNone cfgJpg fileTwoPage [frameP, frameGray] savedTwoPage
    rfl rfl).2.2 (by decide)

/-- C5: under the opaque JPG target every frame is flattened to RGB mode
before encoding — the frame is converted to RGB whenever its mode is not
already RGB — so a decodable input whose frames carry a transparency
channel (such as a fully transparent RGBA source) still encodes
successfully rather than erroring, every written frame being in RGB mode. -/
theorem claim_jpg_flattens (wf : String → Bool) (cfg : Config) (file : InputFile)
    (frames : List Frame)
    (hfmt : cfg.fmt = "jpg") (hw : ∀ p, wf p = false)
    (hfe : file.fileExists = true)
    (hex : extractFrames file = .ok frames) :
    (∀ f, (convertMode "jpg" f).mode = "RGB") ∧
    ∃ saved, processImage wf cfg file = .ok saved ∧ saved ≠ [] ∧
      ∀ s ∈ saved, s.frame.mode = "RGB" := by
  refine ⟨convertMode_jpg_mode, ?_⟩
  rw [processImage_eq wf cfg file frames hfe hex]
  obtain ⟨saved, hok, hmodes⟩ :=
    processFrames_jpg_ok wf cfg
      (if 1 < frames.length then joinPath cfg.outDir (stemOf file.path) else cfg.outDir)
      (stemOf file.path) (decide (1 < frames.length)) hfmt hw frames 0
  refine ⟨saved, hok, ?_, hmodes⟩
  have hlen := processFrames_ok_length wf cfg _ _ _ frames 0 saved hok
  have hne := extractFrames_ok_ne_nil file frames hex
  intro hnil
  apply hne
  apply List.length_eq_zero.mp
  rw [← hlen, hnil]
  rfl

/-- C5 witness: the fully transparent single-frame RGBA input `fileRGBA`
converts to JPG successfully, its written frame flattened to RGB mode. -/
theorem claim_jpg_flattens_witness :
    (∀ f, (convertMode "jpg" f).mode = "RGB") ∧
    ∃ saved, processImage wfNone cfgJpg fileRGBA = .ok saved ∧ saved ≠ [] ∧
      ∀ s ∈ saved, s.frame.mode = "RGB" :=
  claim_jpg_flattens wfNone cfgJpg fileRGBA [frameRGBA] rfl (fun _ => rfl) rfl rfl

/-- C6: requesting the ICO output format with a supplied positive edge
length resizes every frame to a square of exactly that edge length (stored
resolution edge×edge) irrespective of the source aspect ratio, and the
color-mode conversion happens before this resize: the result carries the
mode-converted frame's mode, while mode conversion itself never changes the
frame's dimensions. -/
theorem claim_ico_resize (cfg : Config) (f : Frame) (s : Int)
    (hfmt : cfg.fmt = "ico") (hs : cfg.icoSize = some s) (hpos : 0 < s) :
    transformFrame cfg.fmt cfg.icoSize f
      = .ok { mode := (convertMode cfg.fmt f).mode
            , width := s.toNat, height := s.toNat } ∧
    (convertMode cfg.fmt f).width = f.width ∧
    (convertMode cfg.fmt f).height = f.height := by
  refine ⟨?_, (convertMode_dims cfg.fmt f).1, (convertMode_dims cfg.fmt f).2⟩
  have hs0 : icoTruthy (some s) = true := by
    unfold icoTruthy
    rw [bne_iff_ne]
    omega
  unfold transformFrame icoResize
  rw [hfmt, hs, if_pos ⟨rfl, hs0⟩]
  dsimp only
  rw [if_neg (by omega : ¬ s ≤ 0)]

/-- C6 witness: a 640×5 palette frame under the ICO request with edge 64 is
resized to exactly 64×64, the mode conversion applied beforehand. -/
theorem claim_ico_resize_witness :
    transformFrame cfgIco.fmt cfgIco.icoSize frameP
      = .ok { mode := (convertMode cfgIco.fmt frameP).mode
            , width := (64 : Int).toNat, height := (64 : Int).toNat } :=
  (claim_ico_resize cfgIco frameP 64 rfl rfl (by decide)).1

end Converter
